import Mathlib

/-!
A shallow embedding of the Morse-Coder firmware core (`src/main.rs` of the
richest program variant): the multi-tap input engine, the keypad scanner and
the Morse encoder/player, together with proofs that they satisfy the
specification.

Modelling conventions:
* Rust `char` becomes Lean `Char`; `usize` counters become `Nat`.
* `Instant`/`Duration` become `Nat` milliseconds; `checked_duration_since`
  is modelled explicitly (it yields `none` when the clock went backwards,
  and the code then substitutes the timeout via `unwrap_or`).
* The mutable state threaded through `handle_multitap_input`
  (`last_key`, `tap_index`, `last_press_time`) becomes an explicit record
  `MTState`; the function returns the updated state next to its result.
* GPIO side effects of the Morse player become an explicit event trace
  (`MorseEvent`): a pulse records which LEDs and the buzzer are driven high
  and for how long before being driven low again; a silence records a pure
  delay.
* Rust slice indexing `chars[i]`, which panics when out of bounds, is
  modelled by the fallible `chars[i]?`; the safety claim shows the `none`
  (panic) case never arises.
-/

/-- The two input modes of the firmware (`enum InputMode`). -/
inductive InputMode where
  | Text
  | Numeric
deriving Repr, DecidableEq

/-- Rust `char::is_ascii_digit`: the code point lies between '0' (48) and
'9' (57). -/
def is_ascii_digit (c : Char) : Bool :=
  48 ≤ c.toNat && c.toNat ≤ 57

/-- Rust `char::to_ascii_uppercase`: subtract 32 from a lowercase ASCII
letter, leave every other character unchanged. -/
def to_ascii_uppercase (c : Char) : Char :=
  if 97 ≤ c.toNat && c.toNat ≤ 122 then Char.ofNat (c.toNat - 32) else c

/-- The match body of `morse_table`, applied after uppercasing. -/
def morse_code_of_upper (u : Char) : Option String :=
  match u with
  | 'A' => some ".-"
  | 'B' => some "-..."
  | 'C' => some "-.-."
  | 'D' => some "-.."
  | 'E' => some "."
  | 'F' => some "..-."
  | 'G' => some "--."
  | 'H' => some "...."
  | 'I' => some ".."
  | 'J' => some ".---"
  | 'K' => some "-.-"
  | 'L' => some ".-.."
  | 'M' => some "--"
  | 'N' => some "-."
  | 'O' => some "---"
  | 'P' => some ".--."
  | 'Q' => some "--.-"
  | 'R' => some ".-."
  | 'S' => some "..."
  | 'T' => some "-"
  | 'U' => some "..-"
  | 'V' => some "...-"
  | 'W' => some ".--"
  | 'X' => some "-..-"
  | 'Y' => some "-.--"
  | 'Z' => some "--.."
  | '0' => some "-----"
  | '1' => some ".----"
  | '2' => some "..---"
  | '3' => some "...--"
  | '4' => some "....-"
  | '5' => some "....."
  | '6' => some "-...."
  | '7' => some "--..."
  | '8' => some "---.."
  | '9' => some "----."
  | _ => none

/-- Source function `fn morse_table(c: char) -> Option<&'static str>`: the Morse encoder,
a pure lookup over the uppercased character. -/
def morse_table (c : Char) : Option String :=
  morse_code_of_upper (to_ascii_uppercase c)

/-- Source function `fn get_multitap_chars(key: char)`: the
multi-tap candidate table. -/
def get_multitap_chars (key : Char) : Option (List Char) :=
  match key with
  | '2' => some ['A', 'B', 'C']
  | '3' => some ['D', 'E', 'F']
  | '4' => some ['G', 'H', 'I']
  | '5' => some ['J', 'K', 'L']
  | '6' => some ['M', 'N', 'O']
  | '7' => some ['P', 'Q', 'R', 'S']
  | '8' => some ['T', 'U', 'V']
  | '9' => some ['W', 'X', 'Y', 'Z']
  | '0' => some [' ']
  | _ => none

/-- Source function `fn confirm_key(key, tap_index, mode) -> Option<char>`.  The Text-mode
slice access `chars[tap_index % chars.len()]` is modelled by the fallible
lookup `chars[...]?` so that an out-of-bounds access would be visible as
`none` of the inner lookup. -/
def confirm_key (key : Char) (tap_index : Nat) (mode : InputMode) : Option Char :=
  match mode with
  | InputMode.Numeric =>
      if is_ascii_digit key then some key
      else if key = '1' then some '1'
      else none
  | InputMode.Text =>
      match get_multitap_chars key with
      | some chars => chars[tap_index % chars.length]?
      | none => none

/-- The multi-tap accumulation state threaded by reference through
`handle_multitap_input`: pending key, repeat-tap count, and the timestamp
of the last accepted press (milliseconds). -/
structure MTState where
  last_key : Option Char
  tap_index : Nat
  last_press_time : Nat
deriving Repr, DecidableEq

/-- The expression `now.checked_duration_since(last_press_time).unwrap_or(timeout)` with
`timeout = 1000`: the elapsed time, or the timeout itself when the clock
comparison fails (`now < last_press_time`). -/
def checked_elapsed (now lpt : Nat) : Nat :=
  if lpt ≤ now then now - lpt else 1000

/-- The timeout-confirmation test at the top of `handle_multitap_input`:
the confirmed character when a pending key exists, the 1000ms timeout has
elapsed, and `confirm_key` resolves; `none` exactly when that branch of
the code falls through to the scan. -/
def timeout_result (st : MTState) (mode : InputMode) (now : Nat) : Option Char :=
  match st.last_key with
  | some last =>
      if 1000 ≤ checked_elapsed now st.last_press_time then
        confirm_key last st.tap_index mode
      else none
  | none => none

/-- The per-mode validity test of `handle_multitap_input`: Text mode
accepts keys with a multi-tap entry, Numeric mode accepts ASCII digits. -/
def valid_for_mode (key : Char) (mode : InputMode) : Bool :=
  match mode with
  | InputMode.Text => (get_multitap_chars key).isSome
  | InputMode.Numeric => is_ascii_digit key

/-- One tick of `handle_multitap_input`, as a pure function of the current
state, the mode, the current time and the scanner's result for this tick
(the scanner is only consulted when the timeout branch does not return,
exactly as in the code).  Returns the updated state and the optional
`(character, is_mode_switch)` result. -/
def handle_multitap_input (st : MTState) (mode : InputMode) (now : Nat)
    (scanned : Option Char) : MTState × Option (Char × Bool) :=
  match timeout_result st mode now with
  | some ch =>
      (⟨none, 0, st.last_press_time⟩, some (ch, false))
  | none =>
      match scanned with
      | none => (st, none)
      | some key =>
          if key = '#' then (⟨none, 0, st.last_press_time⟩, some ('#', true))
          else if key = '*' then (⟨none, 0, st.last_press_time⟩, some ('*', false))
          else if key = '!' then (⟨none, 0, st.last_press_time⟩, some ('!', false))
          else if key = '(' then (⟨none, 0, st.last_press_time⟩, some ('(', false))
          else if key = ')' then (⟨none, 0, st.last_press_time⟩, some (')', false))
          else if key = '^' then (⟨none, 0, st.last_press_time⟩, some ('^', false))
          else if valid_for_mode key mode = false then
            (⟨none, 0, st.last_press_time⟩, none)
          else if st.last_key = some key then
            (⟨some key, st.tap_index + 1, now⟩, none)
          else
            match st.last_key with
            | some last =>
                match confirm_key last st.tap_index mode with
                | some ch => (⟨some key, 0, now⟩, some (ch, false))
                | none => (⟨some key, 0, now⟩, none)
            | none => (⟨some key, 0, now⟩, none)

/-- The inner row loop of `scan_keypad` for an active column `c`: the
first row index in `rs` whose line reads low (pressed). -/
def find_row (pressed : Nat → Nat → Bool) (c : Nat) : List Nat → Option Nat
  | [] => none
  | r :: rs => if pressed r c then some r else find_row pressed c rs

/-- The outer column loop of `scan_keypad`: the first column in `cs` with
a pressed row, paired with that row. -/
def find_key (pressed : Nat → Nat → Bool) : List Nat → Option (Nat × Nat)
  | [] => none
  | c :: cs =>
      match find_row pressed c [0, 1, 2, 3] with
      | some r => some (r, c)
      | none => find_key pressed cs

/-- Source function `fn scan_keypad(...) -> Option<char>`: drive each column low in order,
read the rows top-to-bottom, and return the mapped key of the first pressed
position found, column-major.  `pressed r c` models "row line `r` reads low
while column `c` is driven low". -/
def scan_keypad (keys : Nat → Nat → Char) (pressed : Nat → Nat → Bool) :
    Option Char :=
  (find_key pressed [0, 1, 2, 3]).map fun rc => keys rc.1 rc.2

/-- The observable effect trace of the Morse player: a pulse drives the
recorded LEDs and buzzer high for `ms` milliseconds and then low again; a
silence is a pure delay of `ms` milliseconds. -/
inductive MorseEvent where
  | pulse (led1 led2 led3 buzzer : Bool) (ms : Nat)
  | silence (ms : Nat)
deriving Repr, DecidableEq

/-- Source function `flash_dot`: LED 2 (the designated dot LED) and the buzzer high for
200ms, then low. -/
def flash_dot : List MorseEvent :=
  [MorseEvent.pulse false true false true 200]

/-- Source function `flash_dash`: all three LEDs and the buzzer high for 600ms, then low. -/
def flash_dash : List MorseEvent :=
  [MorseEvent.pulse true true true true 600]

/-- Source function `display_letter_morse` as an event trace: for each symbol of the Morse
code, a dot or dash pulse (other symbols are skipped by the wildcard arm)
followed by the 200ms inter-symbol silence; after the loop, the 600ms
inter-letter silence.  A character without a Morse entry produces no
events at all. -/
def display_letter_morse (c : Char) : List MorseEvent :=
  match morse_table c with
  | some code =>
      (code.toList.flatMap fun symbol =>
        (match symbol with
         | '.' => flash_dot
         | '-' => flash_dash
         | _ => []) ++ [MorseEvent.silence 200]) ++ [MorseEvent.silence 600]
  | none => []

/-! ### Reference definitions taken from the spec's words

These are used only for refinement claims: they restate what the spec
says, to be compared with the definitions above that were translated from
the source. -/

/-- The spec's reference confirmation rule: in Numeric mode any ASCII digit
confirms to itself and non-digits to nothing; in Text mode a key with a
MultiTapTable entry confirms to `entry[tap_index mod len(entry)]` and any
other key to nothing. -/
def confirm_rule_spec (key : Char) (tap_index : Nat) (mode : InputMode) :
    Option Char :=
  match mode with
  | InputMode.Numeric => if is_ascii_digit key then some key else none
  | InputMode.Text =>
      (get_multitap_chars key).map fun chars =>
        chars.getD (tap_index % chars.length) ' '

/-- The spec's reference playback trace: every `.` is a 200ms pulse of one
designated LED plus the buzzer, every `-` a 600ms pulse of all three LEDs
plus the buzzer, each symbol followed by a 200ms silence, the whole
sequence followed by a 600ms silence; nothing when `encode` yields
nothing. -/
def play_spec (c : Char) : List MorseEvent :=
  match morse_table c with
  | some code =>
      (code.toList.flatMap fun symbol =>
        [if symbol = '.' then MorseEvent.pulse false true false true 200
         else MorseEvent.pulse true true true true 600,
         MorseEvent.silence 200]) ++ [MorseEvent.silence 600]
  | none => []

example : confirm_key '2' 4 InputMode.Text = some 'B' := by decide
example : confirm_key '1' 3 InputMode.Text = none := by decide
example : confirm_key '1' 3 InputMode.Numeric = some '1' := by decide
example : morse_table 's' = some "..." := by decide
example : morse_table '@' = none := by decide

/-! ### Helper lemmas -/

/-- Every multi-tap table entry is a non-empty list. -/
theorem get_multitap_chars_ne_nil (key : Char) (chars : List Char)
    (h : get_multitap_chars key = some chars) : chars ≠ [] := by
  unfold get_multitap_chars at h
  split at h <;> first
    | (injection h with h; subst h; simp)
    | simp_all

/-- For a non-empty list, the modulo-reduced lookup is in bounds and agrees
with the total `getD` lookup. -/
theorem getElem?_mod_eq_getD (l : List Char) (n : Nat) (h : l ≠ []) :
    l[n % l.length]? = some (l.getD (n % l.length) ' ') := by
  have hlen : 0 < l.length := List.length_pos.mpr h
  have hlt : n % l.length < l.length := Nat.mod_lt _ hlen
  rw [List.getElem?_eq_getElem hlt, List.getD_eq_getElem l ' ' hlt]

/-- C1.  The confirmation rule of the code coincides with the spec's
reference definition at every key, tap index and mode: in Numeric mode an
ASCII digit confirms to itself and anything else to nothing (the dead
`key == '1'` branch of the code never changes this, since '1' is a
digit); in Text mode a key with a multi-tap entry confirms to
`entry[tap_index mod len(entry)]` and anything else to nothing; in
particular every key with a multi-tap entry (exactly {'2'..'9','0'})
confirms after `n` repeat taps to `table[k][n mod len(table[k])]`. -/
theorem confirm_key_matches_spec :
    (∀ (key : Char) (tap_index : Nat) (mode : InputMode),
      confirm_key key tap_index mode = confirm_rule_spec key tap_index mode) ∧
    (∀ (k : Char) (chars : List Char) (n : Nat),
      get_multitap_chars k = some chars →
      confirm_key k n InputMode.Text = some (chars.getD (n % chars.length) ' ')) := by
  have htext : ∀ (k : Char) (chars : List Char) (n : Nat),
      get_multitap_chars k = some chars →
      confirm_key k n InputMode.Text = some (chars.getD (n % chars.length) ' ') := by
    intro k chars n h
    simp only [confirm_key, h]
    exact getElem?_mod_eq_getD chars n (get_multitap_chars_ne_nil k chars h)
  refine ⟨?_, htext⟩
  intro key t mode
  cases mode with
  | Numeric =>
      rcases hd : is_ascii_digit key with _ | _
      · have h1 : key ≠ '1' := by
          rintro rfl
          have : is_ascii_digit '1' = true := by decide
          simp [this] at hd
        simp [confirm_key, confirm_rule_spec, hd, h1]
      · simp [confirm_key, confirm_rule_spec, hd]
  | Text =>
      rcases h : get_multitap_chars key with _ | chars
      · simp [confirm_key, confirm_rule_spec, h]
      · rw [htext key chars t h]
        simp [confirm_rule_spec, h]

/-- Witness for C1 at key '2', tap index 5, Text mode. -/
theorem confirm_key_matches_spec_witness :
    confirm_key '2' 5 InputMode.Text = some 'C' := by
  have h := confirm_key_matches_spec.2 '2' ['A', 'B', 'C'] 5 (by decide)
  simpa using h

/-- C9.  For every key with a multi-tap entry and every tap index, the
entry is non-empty, the modulo-reduced index is strictly below the entry
length, the candidate lookup succeeds, and Text-mode confirmation cannot
fail: the out-of-bounds (panic) case of `chars[tap_index % chars.len()]`
is unreachable however large the tap index is. -/
theorem multitap_lookup_in_bounds :
    ∀ (key : Char) (chars : List Char) (tap_index : Nat),
      get_multitap_chars key = some chars →
      chars.length ≠ 0 ∧
      tap_index % chars.length < chars.length ∧
      (chars[tap_index % chars.length]?).isSome = true ∧
      (confirm_key key tap_index InputMode.Text).isSome = true := by
  intro key chars t h
  have hne : chars ≠ [] := get_multitap_chars_ne_nil key chars h
  have hlen : 0 < chars.length := List.length_pos.mpr hne
  have hlt : t % chars.length < chars.length := Nat.mod_lt _ hlen
  refine ⟨by omega, hlt, ?_, ?_⟩
  · rw [getElem?_mod_eq_getD chars t hne]; rfl
  · simp only [confirm_key, h]
    rw [getElem?_mod_eq_getD chars t hne]; rfl

/-- Witness for C9 at key '7' with a very large tap index. -/
theorem multitap_lookup_in_bounds_witness :
    (['P', 'Q', 'R', 'S'] : List Char).length ≠ 0 ∧
    1000003 % (['P', 'Q', 'R', 'S'] : List Char).length <
      (['P', 'Q', 'R', 'S'] : List Char).length ∧
    ((['P', 'Q', 'R', 'S'] : List Char)[1000003 %
      (['P', 'Q', 'R', 'S'] : List Char).length]?).isSome = true ∧
    (confirm_key '7' 1000003 InputMode.Text).isSome = true :=
  multitap_lookup_in_bounds '7' ['P', 'Q', 'R', 'S'] 1000003 (by decide)

/-- Counterexample to C2: with pending key '1' in Text mode ('1' has no
multi-tap entry), the 1000ms timeout fires but the code does NOT clear the
pending state — `last_key` is still `some '1'` after the tick, against the
claim that pending state is cleared regardless once the timeout fires. -/
theorem timeout_clears_pending_cex :
    1000 ≤ checked_elapsed 1000 0 ∧
    confirm_key '1' 0 InputMode.Text = none ∧
    (handle_multitap_input ⟨some '1', 0, 0⟩ InputMode.Text 1000 none).1.last_key
      = some '1' := by
  decide

/-- C2 (amended).  When a pending key exists and the elapsed time since its
last press is at least the 1000ms timeout: if the confirmation rule
resolves a character, the tick clears the pending state and returns
`(character, false)` (whatever the scanner would have said); if the
confirmation rule resolves nothing, the pending state is NOT cleared — the
tick falls through to the scan step, and when nothing is scanned it
returns nothing with the state unchanged. -/
theorem timeout_confirmation :
    ∀ (st : MTState) (mode : InputMode) (now : Nat) (scanned : Option Char)
      (last : Char),
      st.last_key = some last →
      1000 ≤ checked_elapsed now st.last_press_time →
      (∀ ch, confirm_key last st.tap_index mode = some ch →
        handle_multitap_input st mode now scanned =
          (⟨none, 0, st.last_press_time⟩, some (ch, false))) ∧
      (confirm_key last st.tap_index mode = none →
        handle_multitap_input st mode now none = (st, none)) := by
  intro st mode now scanned last hlast htime
  constructor
  · intro ch hch
    simp [handle_multitap_input, timeout_result, hlast, htime, hch]
  · intro hch
    simp [handle_multitap_input, timeout_result, hlast, htime, hch]

/-- Witness for C2 (amended): pending '2' at one repeat tap, timeout fires,
confirms to 'B' and clears the state. -/
theorem timeout_confirmation_witness :
    handle_multitap_input ⟨some '2', 1, 0⟩ InputMode.Text 1500 none =
      (⟨none, 0, 0⟩, some ('B', false)) :=
  (timeout_confirmation ⟨some '2', 1, 0⟩ InputMode.Text 1500 none '2'
    rfl (by decide)).1 'B' (by decide)

/-- C3.  If a pending key exists, the timeout has not elapsed, and a
different, non-special, mode-valid key is scanned: the previous pending
key is confirmed with its accumulated tap index and the current mode and
returned as `(character, false)` when it resolves, or silently dropped
when it does not; either way the new key becomes pending with tap index 0
and `last_press_time` set to now. -/
theorem keychange_confirms_previous :
    ∀ (st : MTState) (mode : InputMode) (now : Nat) (key last : Char),
      st.last_key = some last →
      checked_elapsed now st.last_press_time < 1000 →
      key ∉ (['#', '*', '!', '(', ')', '^'] : List Char) →
      valid_for_mode key mode = true →
      last ≠ key →
      handle_multitap_input st mode now (some key) =
        (⟨some key, 0, now⟩,
         (confirm_key last st.tap_index mode).map fun ch => (ch, false)) := by
  intro st mode now key last hlast htime hspec hvalid hne
  simp only [List.mem_cons, List.mem_singleton, not_or] at hspec
  obtain ⟨h1, h2, h3, h4, h5, h6⟩ := hspec
  have htr : timeout_result st mode now = none := by
    simp [timeout_result, hlast, Nat.not_le.mpr htime]
  have hlk : ¬(st.last_key = some key) := by
    rw [hlast]; simp; exact hne
  rcases hc : confirm_key last st.tap_index mode with _ | ch <;>
    simp [handle_multitap_input, htr, h1, h2, h3, h4, h5, h6, hvalid, hlk,
      hlast, hc, hne]

/-- Witness for C3: pending '2' (tap index 0) displaced by '3' before the
timeout emits 'A' and makes '3' pending — the spec's own scenario. -/
theorem keychange_confirms_previous_witness :
    handle_multitap_input ⟨some '2', 0, 0⟩ InputMode.Text 500 (some '3') =
      (⟨some '3', 0, 500⟩, some ('A', false)) := by
  have h := keychange_confirms_previous ⟨some '2', 0, 0⟩ InputMode.Text 500
    '3' '2' rfl (by decide) (by decide) (by decide) (by decide)
  simpa using h

/-- C4.  Whenever the scanner is reached (the timeout branch fell through)
and returns one of the special keys '#', '*', '!', '(', ')', '^', the
engine bypasses multi-tap accumulation: regardless of mode and pending
state it clears the pending key and tap index and immediately returns
`('#', true)` for the mode toggle and `(key, false)` for the function
keys. -/
theorem special_keys_bypass :
    ∀ (st : MTState) (mode : InputMode) (now : Nat) (key : Char),
      timeout_result st mode now = none →
      key ∈ (['#', '*', '!', '(', ')', '^'] : List Char) →
      handle_multitap_input st mode now (some key) =
        (⟨none, 0, st.last_press_time⟩, some (key, key == '#')) := by
  intro st mode now key htr hmem
  fin_cases hmem <;> simp [handle_multitap_input, htr]

/-- Witness for C4: with '2' pending and the timeout not yet elapsed, the
mode toggle '#' clears the pending state and reports `('#', true)`. -/
theorem special_keys_bypass_witness :
    handle_multitap_input ⟨some '2', 1, 0⟩ InputMode.Text 500 (some '#') =
      (⟨none, 0, 0⟩, some ('#', true)) := by
  have h := special_keys_bypass ⟨some '2', 1, 0⟩ InputMode.Text 500 '#'
    (by decide) (by decide)
  simpa using h

/-- C5.  Whenever the scanner is reached and returns a non-special key that
is invalid for the active mode (Text: no multi-tap entry; Numeric: not an
ASCII digit), the engine clears the pending state and returns nothing: the
press is dropped and the previously pending key is not confirmed. -/
theorem invalid_key_drops :
    ∀ (st : MTState) (mode : InputMode) (now : Nat) (key : Char),
      timeout_result st mode now = none →
      key ∉ (['#', '*', '!', '(', ')', '^'] : List Char) →
      valid_for_mode key mode = false →
      handle_multitap_input st mode now (some key) =
        (⟨none, 0, st.last_press_time⟩, none) := by
  intro st mode now key htr hspec hvalid
  simp only [List.mem_cons, List.mem_singleton, not_or] at hspec
  obtain ⟨h1, h2, h3, h4, h5, h6⟩ := hspec
  simp [handle_multitap_input, htr, h1, h2, h3, h4, h5, h6, hvalid]

/-- Witness for C5: key '1' in Text mode (no multi-tap entry) is dropped
and clears the pending '2'. -/
theorem invalid_key_drops_witness :
    handle_multitap_input ⟨some '2', 0, 0⟩ InputMode.Text 500 (some '1') =
      (⟨none, 0, 0⟩, none) := by
  have h := invalid_key_drops ⟨some '2', 0, 0⟩ InputMode.Text 500 '1'
    (by decide) (by decide) (by decide)
  simpa using h

/-- Unfolding of the inner row loop over the four row indices. -/
theorem find_row_eq (p : Nat → Nat → Bool) (c : Nat) :
    find_row p c [0, 1, 2, 3] =
      if p 0 c then some 0 else if p 1 c then some 1
      else if p 2 c then some 2 else if p 3 c then some 3 else none := rfl

/-- The row loop finds nothing exactly when no row of the column is
pressed. -/
theorem find_row_none_iff (p : Nat → Nat → Bool) (c : Nat) :
    find_row p c [0, 1, 2, 3] = none ↔ ∀ r, r < 4 → p r c = false := by
  rw [find_row_eq]
  constructor
  · intro h r hr
    interval_cases r <;> (split_ifs at h <;> simp_all)
  · intro h
    simp [h 0 (by omega), h 1 (by omega), h 2 (by omega), h 3 (by omega)]

/-- When the row loop returns a row, that row is pressed and every earlier
row of the column is not. -/
theorem find_row_some (p : Nat → Nat → Bool) (c r : Nat)
    (h : find_row p c [0, 1, 2, 3] = some r) :
    r < 4 ∧ p r c = true ∧ ∀ r', r' < r → p r' c = false := by
  rw [find_row_eq] at h
  split_ifs at h with h0 h1 h2 h3
  · obtain rfl := Option.some.inj h
    exact ⟨by omega, h0, fun r' hr' => by interval_cases r' <;> simp_all⟩
  · obtain rfl := Option.some.inj h
    exact ⟨by omega, h1, fun r' hr' => by interval_cases r' <;> simp_all⟩
  · obtain rfl := Option.some.inj h
    exact ⟨by omega, h2, fun r' hr' => by interval_cases r' <;> simp_all⟩
  · obtain rfl := Option.some.inj h
    exact ⟨by omega, h3, fun r' hr' => by interval_cases r' <;> simp_all⟩

/-- The column loop finds nothing exactly when every column's row loop
finds nothing. -/
theorem find_key_none_iff (p : Nat → Nat → Bool) (cs : List Nat) :
    find_key p cs = none ↔ ∀ c ∈ cs, find_row p c [0, 1, 2, 3] = none := by
  induction cs with
  | nil => simp [find_key]
  | cons c cs ih =>
      simp only [find_key]
      rcases h : find_row p c [0, 1, 2, 3] with _ | r
      · simp [h, ih]
      · simp [h]

/-- When the column loop over columns 0..3 returns `(r, c)`, column `c` is
the first with a pressed row, and `r` is what its row loop returned. -/
theorem find_key_some (p : Nat → Nat → Bool) (r c : Nat)
    (h : find_key p [0, 1, 2, 3] = some (r, c)) :
    c < 4 ∧ find_row p c [0, 1, 2, 3] = some r ∧
      ∀ c', c' < c → find_row p c' [0, 1, 2, 3] = none := by
  simp only [find_key] at h
  rcases h0 : find_row p 0 [0, 1, 2, 3] with _ | r0 <;> rw [h0] at h
  · rcases h1 : find_row p 1 [0, 1, 2, 3] with _ | r1 <;> rw [h1] at h
    · rcases h2 : find_row p 2 [0, 1, 2, 3] with _ | r2 <;> rw [h2] at h
      · rcases h3 : find_row p 3 [0, 1, 2, 3] with _ | r3 <;> rw [h3] at h
        · exact absurd h (by simp)
        · simp only [Option.some.injEq, Prod.mk.injEq] at h
          obtain ⟨rfl, rfl⟩ := h
          exact ⟨by omega, h3, fun c' hc' => by
            interval_cases c' <;> assumption⟩
      · simp only [Option.some.injEq, Prod.mk.injEq] at h
        obtain ⟨rfl, rfl⟩ := h
        exact ⟨by omega, h2, fun c' hc' => by
          interval_cases c' <;> assumption⟩
    · simp only [Option.some.injEq, Prod.mk.injEq] at h
      obtain ⟨rfl, rfl⟩ := h
      exact ⟨by omega, h1, fun c' hc' => by
        interval_cases c' <;> assumption⟩
  · simp only [Option.some.injEq, Prod.mk.injEq] at h
    obtain ⟨rfl, rfl⟩ := h
    exact ⟨by omega, h0, fun c' hc' => by omega⟩

/-- C8.  One scan pass reports at most one key (the return type is an
optional single key); when it reports a key, that key sits at a pressed
position resolved in column-major order — no earlier column has any
pressed row, and no earlier row of the winning column is pressed — and it
reports nothing exactly when no position of the 4×4 matrix is pressed. -/
theorem scan_keypad_column_major :
    ∀ (keys : Nat → Nat → Char) (pressed : Nat → Nat → Bool),
      (scan_keypad keys pressed = none ↔
        ∀ r, r < 4 → ∀ c, c < 4 → pressed r c = false) ∧
      (∀ k, scan_keypad keys pressed = some k →
        ∃ r c, r < 4 ∧ c < 4 ∧ pressed r c = true ∧ k = keys r c ∧
          (∀ c', c' < c → ∀ r', r' < 4 → pressed r' c' = false) ∧
          (∀ r', r' < r → pressed r' c = false)) := by
  intro keys p
  constructor
  · rw [scan_keypad, Option.map_eq_none', find_key_none_iff]
    constructor
    · intro h r hr c hc
      have hc' : c ∈ ([0, 1, 2, 3] : List Nat) := by
        simp only [List.mem_cons, List.not_mem_nil, or_false]
        omega
      exact (find_row_none_iff p c).mp (h c hc') r hr
    · intro h c hc
      have hc4 : c < 4 := by
        simp only [List.mem_cons, List.not_mem_nil, or_false] at hc
        omega
      exact (find_row_none_iff p c).mpr fun r hr => h r hr c hc4
  · intro k hk
    rw [scan_keypad, Option.map_eq_some'] at hk
    obtain ⟨rc, hrc, hkeq⟩ := hk
    obtain ⟨hc4, hrow, hcols⟩ := find_key_some p rc.1 rc.2 (by
      rw [← hrc])
    obtain ⟨hr4, hp, hrows⟩ := find_row_some p rc.2 rc.1 hrow
    refine ⟨rc.1, rc.2, hr4, hc4, hp, hkeq.symm, ?_, hrows⟩
    intro c' hc' r' hr'
    exact (find_row_none_iff p c').mp (hcols c' hc') r' hr'

/-- The key layout of the source's `init_keypad` (`keys[r][c]`). -/
def keypad_layout (r c : Nat) : Char :=
  ((([['1', '2', '3', '!'],
      ['4', '5', '6', '^'],
      ['7', '8', '9', ')'],
      ['*', '0', '#', '(']] : List (List Char)).getD r []).getD c ' ')

/-- A concrete press pattern with two simultaneous presses, at (row 2,
column 1) and (row 0, column 3). -/
def two_presses (r c : Nat) : Bool :=
  (r == 2 && c == 1) || (r == 0 && c == 3)

/-- Witness for C8: with presses at (2,1) and (0,3) the scan reports '8',
the key of the first active column (1) and its first active row (2). -/
theorem scan_keypad_column_major_witness :
    ∃ r c, r < 4 ∧ c < 4 ∧ two_presses r c = true ∧
      '8' = keypad_layout r c ∧
      (∀ c', c' < c → ∀ r', r' < 4 → two_presses r' c' = false) ∧
      (∀ r', r' < r → two_presses r' c = false) :=
  (scan_keypad_column_major keypad_layout two_presses).2 '8' (by decide)

/-- Every Morse code string produced by the table consists only of dots
and dashes. -/
theorem morse_table_symbols (c : Char) (s : String) (h : morse_table c = some s) :
    ∀ x ∈ s.toList, x = '.' ∨ x = '-' := by
  unfold morse_table morse_code_of_upper at h
  split at h <;> first
    | (injection h with h; subst h; decide)
    | simp_all

/-- On a list of dots and dashes, the source's per-symbol trace (with its
wildcard arm skipping other symbols) agrees with the spec's per-symbol
trace. -/
theorem symbol_trace_eq (l : List Char) (h : ∀ x ∈ l, x = '.' ∨ x = '-') :
    (l.flatMap fun symbol =>
      (match symbol with
       | '.' => flash_dot
       | '-' => flash_dash
       | _ => []) ++ [MorseEvent.silence 200]) =
    (l.flatMap fun symbol =>
      [if symbol = '.' then MorseEvent.pulse false true false true 200
       else MorseEvent.pulse true true true true 600,
       MorseEvent.silence 200]) := by
  induction l with
  | nil => rfl
  | cons x xs ih =>
      simp only [List.flatMap_cons]
      rw [ih (fun y hy => h y (List.mem_cons_of_mem x hy))]
      rcases h x (List.mem_cons_self x xs) with rfl | rfl <;> rfl

/-- C6.  The playback trace of the code coincides with the spec's
reference trace for every character: each dot is a 200ms pulse of the
designated LED (LED 2) plus the buzzer, each dash a 600ms pulse of all
three LEDs plus the buzzer, every symbol (the last included) is followed
by a 200ms silence, and the sequence by a 600ms silence; 'S' produces
exactly three dot pulses and 'O' exactly three dash pulses; a character
without a Morse entry produces no events and no delays at all. -/
theorem display_letter_morse_correct :
    (∀ c, display_letter_morse c = play_spec c) ∧
    display_letter_morse 'S' =
      [MorseEvent.pulse false true false true 200, MorseEvent.silence 200,
       MorseEvent.pulse false true false true 200, MorseEvent.silence 200,
       MorseEvent.pulse false true false true 200, MorseEvent.silence 200,
       MorseEvent.silence 600] ∧
    display_letter_morse 'O' =
      [MorseEvent.pulse true true true true 600, MorseEvent.silence 200,
       MorseEvent.pulse true true true true 600, MorseEvent.silence 200,
       MorseEvent.pulse true true true true 600, MorseEvent.silence 200,
       MorseEvent.silence 600] ∧
    (∀ c, morse_table c = none → display_letter_morse c = []) := by
  refine ⟨?_, by decide, by decide, ?_⟩
  · intro c
    unfold display_letter_morse play_spec
    rcases h : morse_table c with _ | s
    · rfl
    · exact congrArg (fun l => l ++ [MorseEvent.silence 600])
        (symbol_trace_eq s.toList (morse_table_symbols c s h))
  · intro c h
    simp [display_letter_morse, h]

/-- Witness for C6: the unmapped character '@' plays nothing. -/
theorem display_letter_morse_correct_witness :
    display_letter_morse '@' = [] :=
  display_letter_morse_correct.2.2.2 '@' (by decide)

/-- The spec's domain of the encoder: ASCII uppercase or lowercase letters
and ASCII digits. -/
def is_ascii_alphanumeric (c : Char) : Bool :=
  (65 ≤ c.toNat && c.toNat ≤ 90) || (97 ≤ c.toNat && c.toNat ≤ 122) ||
    (48 ≤ c.toNat && c.toNat ≤ 57)

/-- Code points below the surrogate range round-trip through
`Char.ofNat`. -/
theorem toNat_char_ofNat (n : Nat) (h : n < 55296) : (Char.ofNat n).toNat = n := by
  have hv : n.isValidChar := Or.inl h
  unfold Char.ofNat
  rw [dif_pos hv]
  rfl

/-- Uppercasing a lowercase ASCII letter subtracts 32 from its code
point. -/
theorem to_ascii_uppercase_toNat_lower (c : Char) (h1 : 97 ≤ c.toNat)
    (h2 : c.toNat ≤ 122) : (to_ascii_uppercase c).toNat = c.toNat - 32 := by
  unfold to_ascii_uppercase
  rw [if_pos (by simp [h1, h2])]
  exact toNat_char_ofNat _ (by omega)

/-- Uppercasing fixes any character outside the lowercase ASCII range. -/
theorem to_ascii_uppercase_eq_self (c : Char)
    (h : ¬(97 ≤ c.toNat ∧ c.toNat ≤ 122)) : to_ascii_uppercase c = c := by
  unfold to_ascii_uppercase
  rw [if_neg]
  simp only [Bool.and_eq_true, decide_eq_true_eq]
  exact h

/-- Uppercasing is idempotent. -/
theorem to_ascii_uppercase_idem (c : Char) :
    to_ascii_uppercase (to_ascii_uppercase c) = to_ascii_uppercase c := by
  by_cases hl : 97 ≤ c.toNat ∧ c.toNat ≤ 122
  · have h := to_ascii_uppercase_toNat_lower c hl.1 hl.2
    exact to_ascii_uppercase_eq_self _ (by omega)
  · rw [to_ascii_uppercase_eq_self c hl]
    exact to_ascii_uppercase_eq_self c hl

/-- When the raw table has an entry, the scrutinee is an uppercase letter
or a digit. -/
theorem morse_upper_range_of_isSome (u : Char)
    (h : (morse_code_of_upper u).isSome = true) :
    (65 ≤ u.toNat ∧ u.toNat ≤ 90) ∨ (48 ≤ u.toNat ∧ u.toNat ≤ 57) := by
  unfold morse_code_of_upper at h
  split at h <;> first
    | exact Or.inl (by decide)
    | exact Or.inr (by decide)
    | simp at h

/-- Every uppercase letter or digit has an entry in the raw table. -/
theorem morse_upper_isSome_of_range (u : Char)
    (h : (65 ≤ u.toNat ∧ u.toNat ≤ 90) ∨ (48 ≤ u.toNat ∧ u.toNat ≤ 57)) :
    (morse_code_of_upper u).isSome = true := by
  have hofn := Char.ofNat_toNat u
  obtain ⟨n, hn⟩ : ∃ n, u.toNat = n := ⟨u.toNat, rfl⟩
  rw [hn] at h hofn
  rcases h with ⟨h1, h2⟩ | ⟨h1, h2⟩ <;> interval_cases n <;>
    (rw [← hofn]; decide)

/-- The uppercased character is an uppercase letter or digit exactly when
the original character is an ASCII letter (either case) or digit. -/
theorem upper_range_iff_alphanumeric (c : Char) :
    ((65 ≤ (to_ascii_uppercase c).toNat ∧ (to_ascii_uppercase c).toNat ≤ 90) ∨
      (48 ≤ (to_ascii_uppercase c).toNat ∧ (to_ascii_uppercase c).toNat ≤ 57)) ↔
    is_ascii_alphanumeric c = true := by
  by_cases hl : 97 ≤ c.toNat ∧ c.toNat ≤ 122
  · rw [to_ascii_uppercase_toNat_lower c hl.1 hl.2]
    simp only [is_ascii_alphanumeric, Bool.or_eq_true, Bool.and_eq_true,
      decide_eq_true_eq]
    omega
  · rw [to_ascii_uppercase_eq_self c hl]
    simp only [is_ascii_alphanumeric, Bool.or_eq_true, Bool.and_eq_true,
      decide_eq_true_eq]
    omega

/-- C7.  The encoder is a pure case-insensitive lookup: it has an entry
exactly for the ASCII letters (either case) and digits — so
`encode('5') = "....."` — and yields nothing for every other character,
e.g. space and '@'; uppercasing the argument never changes the result. -/
theorem morse_table_domain :
    (∀ c : Char, (morse_table c).isSome = is_ascii_alphanumeric c) ∧
    (∀ c : Char, morse_table (to_ascii_uppercase c) = morse_table c) ∧
    morse_table '5' = some "....." ∧
    morse_table ' ' = none ∧
    morse_table '@' = none := by
  refine ⟨?_, ?_, by decide, by decide, by decide⟩
  · intro c
    have hiff : (morse_table c).isSome = true ↔ is_ascii_alphanumeric c = true := by
      constructor
      · intro h
        exact (upper_range_iff_alphanumeric c).mp
          (morse_upper_range_of_isSome _ h)
      · intro h
        exact morse_upper_isSome_of_range _
          ((upper_range_iff_alphanumeric c).mpr h)
    cases hb1 : (morse_table c).isSome <;> cases hb2 : is_ascii_alphanumeric c <;>
      simp_all
  · intro c
    unfold morse_table
    rw [to_ascii_uppercase_idem]

/-- A key valid for a mode always confirms under that mode. -/
theorem confirm_of_valid (key : Char) (t : Nat) (mode : InputMode)
    (h : valid_for_mode key mode = true) :
    (confirm_key key t mode).isSome = true := by
  cases mode with
  | Text =>
      simp only [valid_for_mode] at h
      obtain ⟨chars, hc⟩ := Option.isSome_iff_exists.mp h
      simp only [confirm_key, hc]
      rw [getElem?_mod_eq_getD chars t (get_multitap_chars_ne_nil key chars hc)]
      rfl
  | Numeric =>
      simp only [valid_for_mode] at h
      simp [confirm_key, h]

/-- The pending-key invariant: whatever key is pending is valid for the
mode in force while it is pending. -/
def valid_pending (st : MTState) (mode : InputMode) : Prop :=
  ∀ k, st.last_key = some k → valid_for_mode k mode = true

/-- C10.  The engine preserves the invariant that a pending key is always
valid for the mode of the call (invalid and special keys clear the pending
state before it can persist); under the invariant, a pending key whose
timeout has elapsed always confirms — the branch where `confirm_key`
returns nothing at timeout is unreachable; and a mode-switch report always
leaves no pending key, so the invariant survives the mode change too. -/
theorem pending_key_always_valid :
    ∀ (st : MTState) (mode : InputMode) (now : Nat) (scanned : Option Char),
      valid_pending st mode →
      (valid_pending (handle_multitap_input st mode now scanned).1 mode ∧
       (∀ last, st.last_key = some last →
         1000 ≤ checked_elapsed now st.last_press_time →
         confirm_key last st.tap_index mode ≠ none) ∧
       (∀ c, (handle_multitap_input st mode now scanned).2 = some (c, true) →
         (handle_multitap_input st mode now scanned).1.last_key = none)) := by
  intro st mode now scanned hvp
  refine ⟨?_, ?_, ?_⟩
  · intro k hk
    unfold handle_multitap_input at hk
    split at hk
    · simp at hk
    · split at hk
      · exact hvp k hk
      · split_ifs at hk with h1 h2 h3 h4 h5 h6 h7 h8
        · simp at hk
          subst hk
          exact Bool.ne_false_iff.mp h7
        · split at hk
          · split at hk <;> (simp at hk; subst hk; exact Bool.ne_false_iff.mp h7)
          · simp at hk
            subst hk
            exact Bool.ne_false_iff.mp h7
  · intro last hlast _
    intro hc
    have hv := hvp last hlast
    have hs := confirm_of_valid last st.tap_index mode hv
    rw [hc] at hs
    simp at hs
  · intro c hc
    rcases hE : handle_multitap_input st mode now scanned with ⟨st', res⟩
    rw [hE] at hc
    simp only at hc
    simp only
    unfold handle_multitap_input at hE
    split at hE
    · simp_all
    · split at hE
      · simp_all
      · split_ifs at hE
        · injection hE with hE1 hE2
          simp [← hE1]
        · injection hE with hE1 hE2
          simp [← hE2] at hc
        · injection hE with hE1 hE2
          simp [← hE2] at hc
        · injection hE with hE1 hE2
          simp [← hE2] at hc
        · injection hE with hE1 hE2
          simp [← hE2] at hc
        · injection hE with hE1 hE2
          simp [← hE2] at hc
        · injection hE with hE1 hE2
          simp [← hE2] at hc
        · injection hE with hE1 hE2
          simp [← hE2] at hc
        · split at hE
          · split at hE <;> (injection hE with hE1 hE2; simp [← hE2] at hc)
          · injection hE with hE1 hE2
            simp [← hE2] at hc

/-- Witness for C10: a valid pending '2' in Text mode, at a tick whose
timeout has elapsed with nothing scanned. -/
theorem pending_key_always_valid_witness :
    valid_pending ⟨some '2', 0, 0⟩ InputMode.Text ∧
    (valid_pending (handle_multitap_input ⟨some '2', 0, 0⟩ InputMode.Text 1200
        none).1 InputMode.Text ∧
     (∀ last, (⟨some '2', 0, 0⟩ : MTState).last_key = some last →
        1000 ≤ checked_elapsed 1200 (⟨some '2', 0, 0⟩ : MTState).last_press_time →
        confirm_key last (⟨some '2', 0, 0⟩ : MTState).tap_index InputMode.Text ≠ none) ∧
     (∀ c, (handle_multitap_input ⟨some '2', 0, 0⟩ InputMode.Text 1200
          none).2 = some (c, true) →
        (handle_multitap_input ⟨some '2', 0, 0⟩ InputMode.Text 1200
          none).1.last_key = none)) :=
  have hvp : valid_pending ⟨some '2', 0, 0⟩ InputMode.Text := fun k hk => by
    injection hk with h
    subst h
    decide
  ⟨hvp, pending_key_always_valid ⟨some '2', 0, 0⟩ InputMode.Text 1200 none hvp⟩
